import Mathlib

/-!
Verification of the WhisperCore reflection pipeline.

This file gives a shallow embedding of the reflection-generation pipeline of
the WhisperCore backend:

* the heuristic extraction engine
  (services/llm_client.py, LLMClient._extract_reflection_weight_and_tags);
* the streaming filter/buffer
  (LLMClient.generate_reflection_and_weight_stream);
* the retry/backoff supervisor (LLMClient.generate_with_long_polling and
  LLMClient.generate_reflection_weight_and_tags);
* the encryption wrapper (models/memory.py, Memory).

Python strings are embedded as lists of natural-number code points
(abbreviated `Str`).  Each Python `re.sub` / `re.search` call that the code
performs is embedded as an executable Lean function implementing the exact
matching semantics of that particular pattern (leftmost match, greedy
quantifiers with backtracking, `re.sub` resuming after each match end).
The transport is embedded as an explicit function from call index to result,
and delays are tracked as rational numbers.
-/

/-- Python strings as lists of Unicode code points. -/
abbrev Str := List Nat

/-- Convert a Lean string literal to its code-point list. -/
def ofStr (s : String) : Str := s.data.map Char.toNat

/-- Python `str.lower` on a single ASCII code point (used for `re.IGNORECASE`). -/
def lowerN (c : Nat) : Nat := if 65 ≤ c ∧ c ≤ 90 then c + 32 else c

/-- Python `\s` (ASCII range): space, tab, newline, carriage return, vertical tab, form feed. -/
def isSpaceN (c : Nat) : Bool := c == 32 || (9 ≤ c && c ≤ 13)

/-- Python `\d` (ASCII): decimal digits. -/
def isDigitN (c : Nat) : Bool := 48 ≤ c && c ≤ 57

/-- Python `\w` (ASCII): letters, digits and underscore; used for `\b` word boundaries. -/
def isWordN (c : Nat) : Bool :=
  (48 ≤ c && c ≤ 57) || (65 ≤ c && c ≤ 90) || (97 ≤ c && c ≤ 122) || c == 95

/-- Numeric value of a digit string, as Python `int` of a `\d+` group. -/
def natOfDigits (ds : Str) : Nat := ds.foldl (fun a c => 10 * a + (c - 48)) 0

/-- Case-insensitive prefix test: does `lit` (given lower-cased) start `s`? -/
def startsWithCI (s lit : Str) : Bool := (s.take lit.length).map lowerN == lit

/-- Case-insensitive substring test (`lit` given lower-cased). -/
def containsCI : Str → Str → Bool
  | [], lit => lit.isEmpty
  | c :: t, lit => startsWithCI (c :: t) lit || containsCI t lit

/-- Case-sensitive substring test. -/
def containsSub : Str → Str → Bool
  | [], lit => lit.isEmpty
  | c :: t, lit => ((c :: t).take lit.length == lit) || containsSub t lit

/-- Python `str.strip()`: remove whitespace from both ends. -/
def pyStrip (s : Str) : Str :=
  ((s.dropWhile isSpaceN).reverse.dropWhile isSpaceN).reverse

/-- Python `str.split(",")`: split at every comma, keeping empty pieces. -/
def splitComma : Str → List Str
  | [] => [[]]
  | c :: s =>
    match splitComma s with
    | [] => [[c]]
    | h :: t => if c = 44 then [] :: h :: t else (c :: h) :: t

/-- Split a string at every `.` (code 46), keeping empty segments:
the maximal `[^.]*` runs that the sentence-removal patterns operate on. -/
def splitDots : Str → List Str
  | [] => [[]]
  | c :: s =>
    match splitDots s with
    | [] => [[c]]
    | h :: t => if c = 46 then [] :: h :: t else (c :: h) :: t

/-- One pass of `re.sub(r"[^.]*NEEDLE[^.]*\.?", "", s, flags=re.IGNORECASE)`
for a dot-free needle: every dot-separated segment containing the needle is
removed together with its trailing dot (the final segment has none).
This is exactly the leftmost-match/greedy semantics of the Python pattern,
because every match spans from the start of the dot-free run around the
first needle occurrence up to and including the next dot. -/
def subSegsCI (needle : Str) : List Str → Str
  | [] => []
  | [seg] => if containsCI seg needle then [] else seg
  | seg :: rest => (if containsCI seg needle then [] else seg ++ [46]) ++ subSegsCI needle rest

/-- `re.sub(r"[^.]*NEEDLE[^.]*\.?", "", s, flags=re.IGNORECASE)` for a dot-free needle. -/
def subSentence (needle : Str) (s : Str) : Str := subSegsCI needle (splitDots s)

/-- The literal `tags:` (lower-cased), code points of `TAGS:`. -/
def tagsLit : Str := ofStr "tags:"

/-- Attempt to match `TAGS:\s*(.+)` (IGNORECASE) at the current position.
On success returns `(group 1, remainder after the match)`.  The greedy `\s*`
backtracks until `.+` can consume at least one non-newline character; `.+`
then runs to the end of the line. -/
def tagsHere (s : Str) : Option (Str × Str) :=
  if startsWithCI s tagsLit then
    let rest0 := s.drop 5
    let w := rest0.takeWhile isSpaceN
    let r := rest0.dropWhile isSpaceN
    if r ≠ [] ∧ r.headD 0 ≠ 10 then
      some (r.takeWhile (· ≠ 10), r.dropWhile (· ≠ 10))
    else
      let k := (w.reverse.takeWhile (· == 10)).length
      if k < w.length then
        some ([(w.reverse.drop k).headD 0], (w.reverse.take k).reverse ++ r)
      else none
  else none

/-- Leftmost match of `TAGS:\s*(.+)` (IGNORECASE): returns
`(text before the match, group 1, remainder after the match)`. -/
def tagsFind : Str → Option (Str × Str × Str)
  | [] => none
  | c :: s =>
    match tagsHere (c :: s) with
    | some (g, rem) => some ([], g, rem)
    | none => (tagsFind s).map fun p => (c :: p.1, p.2.1, p.2.2)

/-- `re.search(r"TAGS:\s*(.+)", s, re.IGNORECASE)`: group 1 of the first match. -/
def searchTags (s : Str) : Option Str := (tagsFind s).map (·.2.1)

/-- Fuelled worker for `re.sub(r"TAGS:\s*.+", "", s, flags=re.IGNORECASE)`. -/
def subTagsGo : Nat → Str → Str
  | 0, s => s
  | fuel + 1, s =>
    match tagsFind s with
    | none => s
    | some (b, _, rem) => b ++ subTagsGo fuel rem

/-- `re.sub(r"TAGS:\s*.+", "", s, flags=re.IGNORECASE)`. -/
def subTags (s : Str) : Str := subTagsGo s.length s

/-- `re.sub(r"\b([1-9]|10)\b", "", s)`: remove standalone integers 1–10.
The alternation tries the single digit first; word boundaries are judged
against the original neighbours, tracked by `prevWord`. -/
def subNumGo (prevWord : Bool) : Str → Str
  | [] => []
  | [c] => if (49 ≤ c && c ≤ 57) && !prevWord then [] else [c]
  | c :: d :: s =>
    if (49 ≤ c && c ≤ 57) && !prevWord && !isWordN d then
      subNumGo true (d :: s)
    else if c == 49 && d == 48 && !prevWord && (s.isEmpty || !isWordN (s.headD 0)) then
      subNumGo true s
    else c :: subNumGo (isWordN c) (d :: s)

/-- `re.sub(r"\b([1-9]|10)\b", "", s)`. -/
def subNum (s : Str) : Str := subNumGo false s

/-- `re.sub(r"\*+$", "", s)`: strip a run of asterisks at the very end of the
string, or immediately before a single final newline (`$` without MULTILINE). -/
def subStars (s : Str) : Str :=
  let r := s.reverse
  if r.headD 0 == 42 then (r.dropWhile (· == 42)).reverse
  else if r.headD 0 == 10 && (r.drop 1).headD 0 == 42 then
    ((r.drop 1).dropWhile (· == 42)).reverse ++ [10]
  else s

/-- The dot-free needle of `[^.]*weight[^.]*\.?`. -/
def weightNeedle : Str := ofStr "weight"

/-- The dot-free needle of `[^.]*weighs?[^.]*\.?` (the `s?` never changes the
match span, which always runs to the surrounding dots). -/
def weighNeedle : Str := ofStr "weigh"

/-- The literal `weight:` (lower-cased), for pattern 1 `\*?\*?Weight:\s*(\d+)\*?\*?`. -/
def weightColonLit : Str := ofStr "weight:"

/-- Attempt to match `\*?\*?Weight:\s*(\d+)\*?\*?` (IGNORECASE) at the current
position: up to two asterisks, the literal, greedy whitespace, at least one
digit, then up to two trailing asterisks.  Returns `(value, remainder)`. -/
def p1Here (s : Str) : Option (Nat × Str) :=
  let k := min (s.takeWhile (· == 42)).length 2
  let s1 := s.drop k
  if startsWithCI s1 weightColonLit then
    let rest0 := s1.drop 7
    let r := rest0.dropWhile isSpaceN
    let ds := r.takeWhile isDigitN
    if ds ≠ [] then
      let afterD := r.drop ds.length
      let k2 := min (afterD.takeWhile (· == 42)).length 2
      some (natOfDigits ds, afterD.drop k2)
    else none
  else none

/-- Leftmost match of pattern 1: `(text before, value, remainder)`. -/
def p1Find : Str → Option (Str × Nat × Str)
  | [] => none
  | c :: s =>
    match p1Here (c :: s) with
    | some (v, rem) => some ([], v, rem)
    | none => (p1Find s).map fun p => (c :: p.1, p.2.1, p.2.2)

/-- `re.search(r"\*?\*?Weight:\s*(\d+)\*?\*?", s, re.IGNORECASE)`: the value. -/
def searchP1 (s : Str) : Option Nat := (p1Find s).map (·.2.1)

/-- Fuelled worker of `re.sub(r"\*?\*?Weight:\s*\d+\*?\*?", "", s, flags=re.IGNORECASE)`. -/
def subP1Go : Nat → Str → Str
  | 0, s => s
  | fuel + 1, s =>
    match p1Find s with
    | none => s
    | some (b, _, rem) => b ++ subP1Go fuel rem

/-- `re.sub(r"\*?\*?Weight:\s*\d+\*?\*?", "", s, flags=re.IGNORECASE)`. -/
def subP1 (s : Str) : Str := subP1Go s.length s

/-- The literal of pattern 2, lower-cased: `This memory holds a weight of `. -/
def p2Lit : Str := ofStr "this memory holds a weight of "

/-- Attempt to match `This memory holds a weight of (\d+)\.?` (IGNORECASE) at
the current position; `(value, remainder after the optional dot)`.  The search
pattern has no `\.?`; only the removal consumes the dot, so the remainder
here is the one the `re.sub` call uses. -/
def p2Here (s : Str) : Option (Nat × Str) :=
  if startsWithCI s p2Lit then
    let r := s.drop p2Lit.length
    let ds := r.takeWhile isDigitN
    if ds ≠ [] then
      let afterD := r.drop ds.length
      some (natOfDigits ds, if afterD.headD 0 == 46 then afterD.drop 1 else afterD)
    else none
  else none

/-- Leftmost match of pattern 2: `(text before, value, remainder)`. -/
def p2Find : Str → Option (Str × Nat × Str)
  | [] => none
  | c :: s =>
    match p2Here (c :: s) with
    | some (v, rem) => some ([], v, rem)
    | none => (p2Find s).map fun p => (c :: p.1, p.2.1, p.2.2)

/-- `re.search(r"This memory holds a weight of (\d+)", s, re.IGNORECASE)`: the value. -/
def searchP2 (s : Str) : Option Nat := (p2Find s).map (·.2.1)

/-- Fuelled worker of `re.sub(r"This memory holds a weight of \d+\.?", "", s, ...)`. -/
def subP2Go : Nat → Str → Str
  | 0, s => s
  | fuel + 1, s =>
    match p2Find s with
    | none => s
    | some (b, _, rem) => b ++ subP2Go fuel rem

/-- `re.sub(r"This memory holds a weight of \d+\.?", "", s, flags=re.IGNORECASE)`. -/
def subP2 (s : Str) : Str := subP2Go s.length s

/-- `re.search(r"\b([1-9]|10)\s*$", t)` on an already-stripped string `t`:
the match can only sit at the very end; the single digit alternative is
tried before `10`. -/
def searchEndNum (t : Str) : Option Nat :=
  match t.reverse with
  | [] => none
  | c :: rest =>
    if (49 ≤ c && c ≤ 57) && (rest.isEmpty || !isWordN (rest.headD 0)) then
      some (c - 48)
    else if c == 48 && rest.headD 0 == 49 && !rest.isEmpty
        && ((rest.drop 1).isEmpty || !isWordN ((rest.drop 1).headD 0)) then
      some 10
    else none

/-- `re.sub(r"\b([1-9]|10)\s*$", "", t)` on an already-stripped string `t`. -/
def subEndNum (t : Str) : Str :=
  match searchEndNum t with
  | some v => t.take (t.length - (if v = 10 then 2 else 1))
  | none => t

/-- Python `[tag.strip() for tag in tags_text.split(",") if tag.strip()]`
applied to the stripped group 1. -/
def parseTags (g : Str) : List Str :=
  ((splitComma (pyStrip g)).map pyStrip).filter (· ≠ [])

namespace LLMClient

/-- Tags extracted by `_extract_reflection_weight_and_tags` (lines 415–420). -/
def tagsOf (response : Str) : List Str :=
  match searchTags response with
  | some g => parseTags g
  | none => []

/-- The running `reflection` value after the tags removal (lines 412–422):
`response.strip()`, with every `TAGS:\s*.+` match removed when the tags
search succeeded. -/
def reflAfterTags (response : Str) : Str :=
  if (searchTags response).isSome then subTags (pyStrip response) else pyStrip response

/-- Pattern 1 value (line 425). -/
def w1v (response : Str) : Option Nat := searchP1 response

/-- `reflection` after the pattern 1 removal (line 430). -/
def reflAfterP1 (response : Str) : Str :=
  if (w1v response).isSome then subP1 (reflAfterTags response) else reflAfterTags response

/-- The `weight` variable after pattern 1 (0 when unmatched). -/
def wA (response : Str) : Nat := (w1v response).getD 0

/-- Pattern 2 value (line 434), consulted only while `weight == 0`. -/
def w2v (response : Str) : Option Nat := searchP2 response

/-- `reflection` after the pattern 2 removal (line 439). -/
def reflAfterP2 (response : Str) : Str :=
  if wA response = 0 ∧ (w2v response).isSome then subP2 (reflAfterP1 response)
  else reflAfterP1 response

/-- The `weight` variable after pattern 2. -/
def wB (response : Str) : Nat :=
  if wA response ≠ 0 then wA response else (w2v response).getD 0

/-- Pattern 3 value (line 443): a standalone 1–10 at the end of `response.strip()`. -/
def w3v (response : Str) : Option Nat := searchEndNum (pyStrip response)

/-- `reflection` after the pattern 3 removal (line 448), which strips the
current reflection before removing the trailing standalone number. -/
def reflAfterP3 (response : Str) : Str :=
  if wB response = 0 ∧ (w3v response).isSome then subEndNum (pyStrip (reflAfterP2 response))
  else reflAfterP2 response

/-- The `weight` variable before the range check. -/
def weightParsed (response : Str) : Nat :=
  if wB response ≠ 0 then wB response else (w3v response).getD 0

/-- The range check (lines 451–453): `if weight > 0 and not (1 <= weight <= 10)`. -/
def weightFinal (response : Str) : Nat :=
  if 0 < weightParsed response ∧ ¬(1 ≤ weightParsed response ∧ weightParsed response ≤ 10)
  then 0 else weightParsed response

/-- The final reflection (lines 456–461): stripped, falling back to
`response.strip()` when empty. -/
def reflFinal (response : Str) : Str :=
  if pyStrip (reflAfterP3 response) = [] then pyStrip response
  else pyStrip (reflAfterP3 response)

/-- `LLMClient._extract_reflection_weight_and_tags` (llm_client.py lines 404–470):
heuristic extraction of `(reflection, weight, tags)` from full response text.
Total by construction, mirroring the Python function, which never raises. -/
def extract_reflection_weight_and_tags (response : Str) : Str × Nat × List Str :=
  (reflFinal response, weightFinal response, tagsOf response)

end LLMClient

namespace LLMClient

/-- The per-chunk filter of `generate_reflection_and_weight_stream`
(lines 266–278): five chained removals applied to a copy of the buffer. -/
def filterBuffer (b : Str) : Str :=
  subStars (subNum (subTags (subSentence weighNeedle (subSentence weightNeedle b))))

/-- The extra removals applied to the extracted reflection before the
`complete` event (lines 294–297). -/
def postFilter (r : Str) : Str :=
  subStars (subNum (subSentence weighNeedle (subSentence weightNeedle r)))

/-- Events yielded by `generate_reflection_and_weight_stream`, keeping the
fields the specification talks about (`attempt` is the 1-based value the code
puts in the event). -/
inductive StreamEvent where
  | chunk (content : Str) (attempt : Nat)
  | complete (reflection : Str) (weight : Nat) (tags : List Str) (attempt : Nat)
  | error (msg : Str) (attempt : Nat)
deriving DecidableEq, Repr

/-- One transport attempt of the streaming call: the text fragments that
`generate_text_stream` yields before either finishing normally
(`failMsg = none`) or raising a caught exception (`failMsg = some e`). -/
structure StreamAttempt where
  frags : List Str
  failMsg : Option Str
deriving DecidableEq, Repr

/-- The loop state of the streaming generator: `full_response`, `buffer`,
and the events yielded so far. -/
structure PFState where
  full : Str
  buffer : Str
  evs : List StreamEvent
deriving DecidableEq, Repr

/-- Processing of one incoming fragment (lines 262–289): append to both
accumulators, filter a copy of the buffer, and flush it as a `chunk` event
when its stripped form is non-empty. -/
def stepFrag (att : Nat) (st : PFState) (frag : Str) : PFState :=
  if pyStrip (filterBuffer (st.buffer ++ frag)) ≠ [] then
    ⟨st.full ++ frag, [], st.evs ++ [.chunk (filterBuffer (st.buffer ++ frag)) att]⟩
  else ⟨st.full ++ frag, st.buffer ++ frag, st.evs⟩

/-- The whole fragment loop of one attempt. -/
def runFrags (att : Nat) : List Str → PFState → PFState
  | [], st => st
  | f :: rest, st => runFrags att rest (stepFrag att st f)

/-- The terminal `complete` event (lines 291–320): extraction plus the extra
reflection filtering when some text arrived, the empty triple otherwise. -/
def completeEventOf (full : Str) (att : Nat) : StreamEvent :=
  if full ≠ [] then
    let e := extract_reflection_weight_and_tags full
    .complete (postFilter e.1) e.2.1 e.2.2 att
  else .complete [] 0 [] att

/-- Fuelled worker for `generate_reflection_and_weight_stream`
(lines 256–330): `cur` is the 0-based attempt index, the fuel the remaining
iterations of `for attempt in range(max_retries)`.  Returns the yielded
events and whether the generator ended by re-raising (all retries failed). -/
def streamGo (attempts : Nat → StreamAttempt) (cur : Nat) : Nat → List StreamEvent × Bool
  | 0 => ([], false)
  | left + 1 =>
    let a := attempts cur
    let st := runFrags (cur + 1) a.frags ⟨[], [], []⟩
    match a.failMsg with
    | none => (st.evs ++ [completeEventOf st.full (cur + 1)], false)
    | some e =>
      if left = 0 then (st.evs ++ [.error e (cur + 1)], true)
      else
        let p := streamGo attempts (cur + 1) left
        (st.evs ++ [.error e (cur + 1)] ++ p.1, p.2)

/-- `LLMClient.generate_reflection_and_weight_stream` (lines 215–330), with
the transport behaviour made explicit per attempt. -/
def generate_reflection_and_weight_stream
    (attempts : Nat → StreamAttempt) (max_retries : Nat) : List StreamEvent × Bool :=
  streamGo attempts 0 max_retries

/-- A transport whose every streaming attempt delivers the fragments `cs`
and then ends normally. -/
def oneShot (cs : List Str) : Nat → StreamAttempt := fun _ => ⟨cs, none⟩

/-- The response of one atomic `generate_text` call (the fields the retry
logic inspects: `done` and the response text). -/
structure GenResp where
  done : Bool
  response : Str
deriving DecidableEq, Repr

/-- One atomic transport call: either a response or a caught exception
(TransportError / TimeoutError), indexed by a global call counter. -/
abbrev Transport := Nat → Except Str GenResp

/-- A failing atomic attempt: a raised (caught) exception, or a response
failing the success predicate `done == true and response` non-empty. -/
def failsAt (x : Except Str GenResp) : Prop :=
  match x with
  | .error _ => True
  | .ok r => r.done = false ∨ r.response = []

instance : DecidablePred failsAt := fun x =>
  match x with
  | .error _ => isTrue trivial
  | .ok _ => inferInstanceAs (Decidable (_ ∨ _))

/-- Fuelled worker for `generate_with_long_polling` (lines 167–213): `idx`
is the transport call counter, the fuel the remaining loop iterations,
`d` the current `retry_delay`.  Returns the result (`.error` models the
re-raise after the last attempt) together with the list of sleeps performed.
With fuel 0 the Python loop body never runs and the function returns `None`;
no caller does that (`max_retries` is at least 1 everywhere). -/
def longPollGo (tr : Transport) (idx : Nat) : Nat → ℚ → Except Str Str × List ℚ
  | 0, _ => (.error [], [])
  | left + 1, d =>
    match tr idx with
    | .ok r =>
      if r.done = true ∧ r.response ≠ [] then (.ok r.response, [])
      else if left = 0 then (.error (ofStr "Generation did not complete successfully"), [])
      else ((longPollGo tr (idx + 1) left (2 * d)).1,
            d :: (longPollGo tr (idx + 1) left (2 * d)).2)
    | .error e =>
      if left = 0 then (.error e, [])
      else ((longPollGo tr (idx + 1) left (2 * d)).1,
            d :: (longPollGo tr (idx + 1) left (2 * d)).2)

/-- `LLMClient.generate_with_long_polling` (lines 167–213). -/
def generate_with_long_polling (tr : Transport) (max_retries : Nat) (retry_delay : ℚ) :
    Except Str Str × List ℚ :=
  longPollGo tr 0 max_retries retry_delay

/-- Fuelled worker for `generate_reflection_weight_and_tags` (lines 332–402):
each outer attempt makes one `generate_with_long_polling(..., max_retries=1)`
call, i.e. consumes exactly one transport call. -/
def genRWTGo (tr : Transport) (idx : Nat) : Nat → ℚ → Except Str (Str × Nat × List Str)
  | 0, _ => .error []
  | left + 1, d =>
    match (longPollGo tr idx 1 d).1 with
    | .ok text =>
      if text ≠ [] then .ok (extract_reflection_weight_and_tags text)
      else if left = 0 then .error (ofStr "Generation did not complete successfully")
      else genRWTGo tr (idx + 1) left (2 * d)
    | .error e =>
      if left = 0 then .error e
      else genRWTGo tr (idx + 1) left (2 * d)

/-- `LLMClient.generate_reflection_weight_and_tags` (lines 332–402):
the atomic reflection call; `.error` models the re-raise after the final
attempt. -/
def generate_reflection_weight_and_tags (tr : Transport) (max_retries : Nat)
    (retry_delay : ℚ) : Except Str (Str × Nat × List Str) :=
  genRWTGo tr 0 max_retries retry_delay

end LLMClient

/-- Idealized model of Fernet ciphertext values (external cryptography
library): a token remembers the key it was minted under, and the `b''`
column placeholder is not a valid token.  Fernet is authenticated
encryption, so decryption under any other key, or of the placeholder,
raises InvalidToken; the model makes that failure exact. -/
inductive CipherBytes where
  | emptyBytes
  | token (key : Nat) (plain : Str)
deriving DecidableEq, Repr

/-- `Fernet(key).encrypt(plain)` in the idealized model. -/
def fernetEncrypt (key : Nat) (plain : Str) : CipherBytes := .token key plain

/-- `Fernet(key).decrypt(c)` in the idealized model: `none` models the
raised InvalidToken. -/
def fernetDecrypt (key : Nat) : CipherBytes → Option Str
  | .emptyBytes => none
  | .token k x => if k = key then some x else none

/-- `Memory` (models/memory.py): the two encrypted columns, whose database
default is the empty byte string `b''` (lines 13–14). -/
structure Memory where
  encrypted_content : CipherBytes := .emptyBytes
  model_response : CipherBytes := .emptyBytes
deriving DecidableEq, Repr

/-- `Memory.set_content` (lines 60–62). -/
def Memory.set_content (m : Memory) (content : Str) (key : Nat) : Memory :=
  { m with encrypted_content := fernetEncrypt key content }

/-- `Memory.get_content` (lines 64–70): decryption failure is caught and
logged, returning `None` (modelled as `none`). -/
def Memory.get_content (m : Memory) (key : Nat) : Option Str :=
  fernetDecrypt key m.encrypted_content

/-- `Memory.set_model_response` (lines 72–74). -/
def Memory.set_model_response (m : Memory) (resp : Str) (key : Nat) : Memory :=
  { m with model_response := fernetEncrypt key resp }

/-- `Memory.get_model_response` (lines 76–82). -/
def Memory.get_model_response (m : Memory) (key : Nat) : Option Str :=
  fernetDecrypt key m.model_response

/-- Does `tok` occur in `s` in isolation, i.e. with no word character
(letter, digit, underscore) adjacent on either side?  `prevWord` tracks
whether the character before the current position is a word character. -/
def isolatedTokGo (tok : Str) (prevWord : Bool) : Str → Bool
  | [] => false
  | c :: t =>
    (!prevWord && ((c :: t).take tok.length == tok)
      && (((c :: t).drop tok.length).isEmpty || !isWordN (((c :: t).drop tok.length).headD 0)))
    || isolatedTokGo tok (isWordN c) t

/-- `tok` occurs in `s` as a bare token in isolation. -/
def isolatedTok (s tok : Str) : Bool := isolatedTokGo tok false s

/-- The fixed full response text of the leak-prevention scenario. -/
def sC1 : Str := ofStr "...the weight is 7 out of 10 TAGS: calm, focus"

/-- The leak conditions checked on one filtered buffer: no `weight`
substring, no bare `7`, no bare `10`. -/
def sliceOK (c : Str) : Bool :=
  !containsSub c (ofStr "weight") && !isolatedTok c (ofStr "7") && !isolatedTok c (ofStr "10")

/-- Exhaustive check of the leak conditions on the filtered form of every
contiguous slice of the scenario text: every buffer the streaming loop can
ever hold is such a slice. -/
def sliceCheckC1 : Bool :=
  (List.range (sC1.length + 1)).all fun j =>
    (List.range (j + 1)).all fun i =>
      sliceOK (LLMClient.filterBuffer ((sC1.take j).drop i))

/-- A fragment split of the scenario text that makes the buffer start in the
middle of the word `weight`, so that the leftover fragment ends in a bare
`TAGS:` that no filter removes. -/
def split3C1 : List Str :=
  [ofStr "...the wei", ofStr "ght is 7 out of 10 TAGS:", ofStr " calm, focus"]

/-- An event is a `chunk` whose content is the filtered form of some
contiguous slice of `S`. -/
def chunkIsSlice (S : Str) (ev : LLMClient.StreamEvent) : Prop :=
  ∀ c a, ev = LLMClient.StreamEvent.chunk c a →
    ∃ i j, i ≤ j ∧ j ≤ S.length ∧ c = LLMClient.filterBuffer ((S.take j).drop i)

/-- Events after which the stream must end: any `complete`, or an `error`
carrying the final attempt number `m` (= `max_retries`). -/
def isTerminalFor (m : Nat) : LLMClient.StreamEvent → Prop
  | .chunk _ _ => False
  | .complete _ _ _ _ => True
  | .error _ a => a = m

/-- Every event satisfying `isTerminalFor m` is the last event of the list. -/
def noTailAfterTerminal (m : Nat) : List LLMClient.StreamEvent → Prop
  | [] => True
  | ev :: rest => (isTerminalFor m ev → rest = []) ∧ noTailAfterTerminal m rest

/-- The full text of the streaming/atomic equivalence counterexample. -/
def t2C2 : Str := ofStr "I weigh the options. 7"

/-- The extraction input of the weight-range counterexample: pattern 1
parses 0 (outside [1,10]), then pattern 2 still parses 5. -/
def s5C5 : Str := ofStr "Weight: 0 This memory holds a weight of 5"

/-- The extraction input of the out-of-range trailing-integer scenario. -/
def s8C8 : Str := ofStr "A special moment 11"

/-- The extraction input of the empty-remainder fallback counterexample:
surrounding whitespace distinguishes the original text from its strip. -/
def s9C9 : Str := ofStr " Weight: 5 "

/-- A transport failing its first two calls and succeeding on the third. -/
def tr7C7 : LLMClient.Transport := fun i =>
  if i < 2 then .error (ofStr "x") else .ok ⟨true, ofStr "ok"⟩

/-! ## Helper lemmas -/

theorem stepFrag_full (att : Nat) (st : LLMClient.PFState) (f : Str) :
    (LLMClient.stepFrag att st f).full = st.full ++ f := by
  unfold LLMClient.stepFrag
  split <;> rfl

theorem stepFrag_evs (att : Nat) (st : LLMClient.PFState) (f : Str) :
    (LLMClient.stepFrag att st f).evs = st.evs
  ∨ (LLMClient.stepFrag att st f).evs
      = st.evs ++ [LLMClient.StreamEvent.chunk (LLMClient.filterBuffer (st.buffer ++ f)) att] := by
  unfold LLMClient.stepFrag
  split
  · exact Or.inr rfl
  · exact Or.inl rfl

theorem runFrags_full (att : Nat) (frags : List Str) :
    ∀ st : LLMClient.PFState,
      (LLMClient.runFrags att frags st).full = st.full ++ frags.flatten := by
  induction frags with
  | nil => intro st; simp [LLMClient.runFrags]
  | cons f rest ih =>
    intro st
    rw [LLMClient.runFrags, ih, stepFrag_full]
    simp

theorem runFrags_evs_chunks (att : Nat) (frags : List Str) :
    ∀ st : LLMClient.PFState,
      (∀ ev ∈ st.evs, ∃ c a, ev = LLMClient.StreamEvent.chunk c a) →
      ∀ ev ∈ (LLMClient.runFrags att frags st).evs, ∃ c a, ev = LLMClient.StreamEvent.chunk c a := by
  induction frags with
  | nil => intro st h; exact h
  | cons f rest ih =>
    intro st h
    rw [LLMClient.runFrags]
    refine ih (LLMClient.stepFrag att st f) ?_
    intro ev hev
    rcases stepFrag_evs att st f with he | he <;> rw [he] at hev
    · exact h ev hev
    · rcases List.mem_append.1 hev with h1 | h1
      · exact h ev h1
      · rcases List.mem_singleton.1 h1 with rfl
        exact ⟨_, _, rfl⟩

/-! ## C6 / C10: encryption wrapper -/

/-- Claim C6: for every non-empty plaintext and key, `get_content` after
`set_content` under the same key returns the plaintext, and decryption under
any other key returns `none` instead of raising; the same holds for the
`set_model_response` / `get_model_response` pair. -/
theorem C6_encryption_roundtrip (m : Memory) (x : Str) (k k2 : Nat)
    (hx : x ≠ []) (hk : k2 ≠ k) :
    (m.set_content x k).get_content k = some x
  ∧ (m.set_content x k).get_content k2 = none
  ∧ (m.set_model_response x k).get_model_response k = some x
  ∧ (m.set_model_response x k).get_model_response k2 = none := by
  refine ⟨?_, ?_, ?_, ?_⟩ <;>
    simp [Memory.set_content, Memory.get_content, Memory.set_model_response,
      Memory.get_model_response, fernetEncrypt, fernetDecrypt] <;>
    exact fun h => hk h.symm

theorem C6_encryption_roundtrip_witness :
    ofStr "hi" ≠ ([] : Str) ∧ (1 : Nat) ≠ 0
  ∧ ((Memory.mk .emptyBytes .emptyBytes).set_content (ofStr "hi") 0).get_content 0
      = some (ofStr "hi")
  ∧ ((Memory.mk .emptyBytes .emptyBytes).set_content (ofStr "hi") 0).get_content 1 = none
  ∧ ((Memory.mk .emptyBytes .emptyBytes).set_model_response (ofStr "hi") 0).get_model_response 0
      = some (ofStr "hi")
  ∧ ((Memory.mk .emptyBytes .emptyBytes).set_model_response (ofStr "hi") 0).get_model_response 1
      = none := by
  have h := C6_encryption_roundtrip (Memory.mk .emptyBytes .emptyBytes) (ofStr "hi") 0 1
    (by decide) (by decide)
  exact ⟨by decide, by decide, h.1, h.2.1, h.2.2.1, h.2.2.2⟩

/-- Claim C10: a freshly constructed `Memory` still holding the `b''`
placeholders yields `none` (not an exception and not the empty string) from
both `get_content` and `get_model_response`: the decryption failure is
swallowed field by field. -/
theorem C10_placeholder_decrypts_to_none (k : Nat) :
    ({} : Memory).get_content k = none ∧ ({} : Memory).get_model_response k = none :=
  ⟨rfl, rfl⟩

/-! ## C9: extraction totality and empty-remainder fallback -/

/-- Claim C9 (amended): extraction always returns a `(reflection, weight,
tags)` triple (it is total, never raising), and whenever the text remaining
after the tag and weight removals strips to empty, the returned reflection
falls back to the original text trimmed of surrounding whitespace
(`response.strip()`), not to the untrimmed original. -/
theorem C9_extraction_total_and_fallback :
    (∀ s : Str, ∃ r w tg, LLMClient.extract_reflection_weight_and_tags s = (r, w, tg))
  ∧ (∀ s : Str, pyStrip (LLMClient.reflAfterP3 s) = [] →
      (LLMClient.extract_reflection_weight_and_tags s).1 = pyStrip s) := by
  constructor
  · intro s; exact ⟨_, _, _, rfl⟩
  · intro s h
    simp [LLMClient.extract_reflection_weight_and_tags, LLMClient.reflFinal, h]

theorem C9_witness :
    pyStrip (LLMClient.reflAfterP3 s9C9) = []
  ∧ (LLMClient.extract_reflection_weight_and_tags s9C9).1 = pyStrip s9C9 :=
  ⟨by decide, C9_extraction_total_and_fallback.2 s9C9 (by decide)⟩

/-- Counterexample to claim C9 as stated: on an input with surrounding
whitespace whose remainder after removals is empty, extraction returns the
stripped original, which differs from the full original text. -/
theorem C9_cex :
    pyStrip (LLMClient.reflAfterP3 s9C9) = []
  ∧ LLMClient.extract_reflection_weight_and_tags s9C9 = (ofStr "Weight: 5", 5, [])
  ∧ ofStr "Weight: 5" ≠ s9C9 := by decide

/-! ## C5: weight bounds and range reset -/

/-- Claim C5 (amended): the returned weight always lies in {0,...,10}; and
whenever the governing parsed value exceeds 10 the result is reset to 0,
never clamped.  (A parsed 0 counts as unset, so a later pattern may still
set an in-range weight.) -/
theorem C5_weight_bounds :
    (∀ s : Str, (LLMClient.extract_reflection_weight_and_tags s).2.1 ≤ 10)
  ∧ (∀ s : Str, 10 < LLMClient.weightParsed s →
      (LLMClient.extract_reflection_weight_and_tags s).2.1 = 0) := by
  constructor
  · intro s
    simp only [LLMClient.extract_reflection_weight_and_tags, LLMClient.weightFinal]
    split
    · exact Nat.zero_le 10
    · omega
  · intro s h
    simp only [LLMClient.extract_reflection_weight_and_tags, LLMClient.weightFinal]
    split
    · rfl
    · omega

theorem C5_witness :
    10 < LLMClient.weightParsed (ofStr "Weight: 11")
  ∧ (LLMClient.extract_reflection_weight_and_tags (ofStr "Weight: 11")).2.1 = 0 :=
  ⟨by decide, C5_weight_bounds.2 (ofStr "Weight: 11") (by decide)⟩

/-- Counterexample to claim C5 as stated: pattern 1 parses the value 0,
which is outside [1,10], yet the final weight is 5 (set by pattern 2), not
0: an out-of-range parse does not always force a zero result. -/
theorem C5_cex :
    LLMClient.w1v s5C5 = some 0
  ∧ ¬(1 ≤ 0 ∧ 0 ≤ 10)
  ∧ (LLMClient.extract_reflection_weight_and_tags s5C5).2.1 = 5 := by decide

/-! ## C8: trailing out-of-range integer -/

/-- Claim C8 (amended): the end-anchored bare-number pattern only ever
parses values 1–10, so a trailing out-of-range integer such as `11` never
parses: the weight is 0 because nothing matched, and the reflection retains
the full text including the trailing number (it is not stripped). -/
theorem C8_trailing_out_of_range :
    (∀ (s : Str) (v : Nat), searchEndNum s = some v → 1 ≤ v ∧ v ≤ 10)
  ∧ LLMClient.extract_reflection_weight_and_tags s8C8 = (s8C8, 0, []) := by
  constructor
  · intro s v h
    unfold searchEndNum at h
    split at h
    · exact absurd h (by simp)
    · split at h
      · rename_i hc
        simp only [Bool.and_eq_true, decide_eq_true_eq] at hc
        rcases Option.some_inj.1 h with rfl
        omega
      · split at h
        · rcases Option.some_inj.1 h with rfl
          omega
        · exact absurd h (by simp)
  · decide

theorem C8_witness :
    searchEndNum (ofStr "7") = some 7 ∧ 1 ≤ 7 ∧ 7 ≤ 10 :=
  ⟨by decide, C8_trailing_out_of_range.1 (ofStr "7") 7 (by decide)⟩

/-- Counterexample to claim C8 as stated: on `A special moment 11` the
weight is 0, but the reflection retains the trailing `11` instead of being
stripped to `A special moment`. -/
theorem C8_cex :
    LLMClient.extract_reflection_weight_and_tags s8C8 = (s8C8, 0, [])
  ∧ s8C8 ≠ ofStr "A special moment" := by decide

/-! ## C3: empty responses exhaust retries -/

theorem genRWT_empty_all (tr : LLMClient.Transport)
    (h : ∀ i, ∃ b, tr i = .ok ⟨b, []⟩) :
    ∀ (m idx : Nat) (d : ℚ), ∃ e, LLMClient.genRWTGo tr idx (m + 1) d = .error e := by
  intro m
  induction m with
  | zero =>
    intro idx d
    obtain ⟨b, hb⟩ := h idx
    refine ⟨ofStr "Generation did not complete successfully", ?_⟩
    rw [LLMClient.genRWTGo, LLMClient.longPollGo, hb]
    simp
  | succ n ih =>
    intro idx d
    obtain ⟨b, hb⟩ := h idx
    obtain ⟨e, he⟩ := ih (idx + 1) (2 * d)
    refine ⟨e, ?_⟩
    rw [LLMClient.genRWTGo, LLMClient.longPollGo, hb]
    simpa using he

/-- Claim C3 (amended): if the transport returns empty text on every
attempt, the atomic `generate_reflection_weight_and_tags` raises after the
final attempt; but the streaming `generate_reflection_and_weight_stream`
terminates with a `complete` event carrying the empty reflection, weight 0
and no tags — not with an `error` event. -/
theorem C3_empty_response_exhaustion :
    (∀ (tr : LLMClient.Transport) (d : ℚ) (m : Nat),
      (∀ i, ∃ b, tr i = .ok ⟨b, []⟩) →
      ∃ e, LLMClient.generate_reflection_weight_and_tags tr (m + 1) d = .error e)
  ∧ (∀ m : Nat,
      LLMClient.generate_reflection_and_weight_stream (fun _ => ⟨[], none⟩) (m + 1)
        = ([.complete [] 0 [] 1], false)) := by
  constructor
  · intro tr d m h
    exact genRWT_empty_all tr h m 0 d
  · intro m
    rfl

theorem C3_witness :
    (∃ e, LLMClient.generate_reflection_weight_and_tags (fun _ => .ok ⟨true, []⟩) 3 1
        = .error e)
  ∧ LLMClient.generate_reflection_and_weight_stream (fun _ => ⟨[], none⟩) 3
      = ([.complete [] 0 [] 1], false) :=
  ⟨C3_empty_response_exhaustion.1 (fun _ => .ok ⟨true, []⟩) 1 2 (fun _ => ⟨true, rfl⟩),
   C3_empty_response_exhaustion.2 2⟩

/-- Counterexample to claim C3 as stated: with a transport whose streaming
attempts all return empty text, the terminal event of the stream is a
`complete` event, not an `error` event. -/
theorem C3_cex :
    (LLMClient.generate_reflection_and_weight_stream (fun _ => ⟨[], none⟩) 3).1.getLast?
      = some (.complete [] 0 [] 1) := rfl

/-! ## C2: terminal complete event versus atomic extraction -/

/-- Claim C2 (amended): for every non-empty full text and every fragment
split of it, the terminal `complete` event carries the weight and tags that
atomic extraction returns on the full text, but its reflection is the
extraction reflection with the four extra streaming removals
(weight sentences, weigh sentences, standalone 1–10, trailing asterisks)
applied on top. -/
theorem C2_stream_complete_vs_extraction (t : Str) (cs : List Str) (m : Nat)
    (ht : t ≠ []) (hcs : cs.flatten = t) :
    (LLMClient.generate_reflection_and_weight_stream (LLMClient.oneShot cs) (m + 1)).1.getLast?
      = some (.complete
          (LLMClient.postFilter (LLMClient.extract_reflection_weight_and_tags t).1)
          (LLMClient.extract_reflection_weight_and_tags t).2.1
          (LLMClient.extract_reflection_weight_and_tags t).2.2 1) := by
  have hfull : (LLMClient.runFrags 1 cs ⟨[], [], []⟩).full = t := by
    rw [runFrags_full]
    simpa using hcs
  rw [LLMClient.generate_reflection_and_weight_stream, LLMClient.streamGo]
  simp only [LLMClient.oneShot, Nat.zero_add]
  rw [List.getLast?_concat]
  rw [LLMClient.completeEventOf, if_pos (by rw [hfull]; exact ht), hfull]

theorem C2_witness :
    (LLMClient.generate_reflection_and_weight_stream
        (LLMClient.oneShot [ofStr "Nice day."]) 3).1.getLast?
      = some (.complete
          (LLMClient.postFilter
            (LLMClient.extract_reflection_weight_and_tags (ofStr "Nice day.")).1)
          (LLMClient.extract_reflection_weight_and_tags (ofStr "Nice day.")).2.1
          (LLMClient.extract_reflection_weight_and_tags (ofStr "Nice day.")).2.2 1) :=
  C2_stream_complete_vs_extraction (ofStr "Nice day.") [ofStr "Nice day."] 2
    (by decide) (by decide)

/-- Counterexample to claim C2 as stated: on `I weigh the options. 7`
(delivered in one fragment) the `complete` event's reflection is empty,
while atomic extraction returns the reflection `I weigh the options.`:
the terminal fields are not exactly the extraction triple. -/
theorem C2_cex :
    (LLMClient.generate_reflection_and_weight_stream (LLMClient.oneShot [t2C2]) 3).1.getLast?
      = some (.complete [] 7 [] 1)
  ∧ LLMClient.extract_reflection_weight_and_tags t2C2 = (ofStr "I weigh the options.", 7, [])
  ∧ ([] : Str) ≠ ofStr "I weigh the options." := by decide

/-! ## C7: retry/backoff schedule -/

theorem delays_shift (N : Nat) (d : ℚ) :
    d :: (List.range N).map (fun i => 2 ^ i * (2 * d))
      = (List.range (N + 1)).map fun i => 2 ^ i * d := by
  induction N with
  | zero => simp [List.range_succ]
  | succ n ih =>
    rw [List.range_succ, List.map_append, List.range_succ (n := n + 1), List.map_append]
    rw [← List.cons_append, ih]
    simp only [List.map_cons, List.map_nil]
    congr 1
    simp [pow_succ]
    ring

theorem longPoll_spec (tr : LLMClient.Transport) (r : LLMClient.GenResp)
    (hd : r.done = true) (hr : r.response ≠ []) :
    ∀ (N idx fuel : Nat) (d : ℚ), N < fuel →
      (∀ i, i < N → LLMClient.failsAt (tr (idx + i))) →
      tr (idx + N) = .ok r →
      LLMClient.longPollGo tr idx fuel d
        = (.ok r.response, (List.range N).map fun i => 2 ^ i * d) := by
  intro N
  induction N with
  | zero =>
    intro idx fuel d hf _ hok
    obtain ⟨f, rfl⟩ : ∃ f, fuel = f + 1 := ⟨fuel - 1, by omega⟩
    rw [Nat.add_zero] at hok
    rw [LLMClient.longPollGo, hok]
    simp [hd, hr]
  | succ n ih =>
    intro idx fuel d hf hfail hok
    obtain ⟨f, rfl⟩ : ∃ f, fuel = f + 1 := ⟨fuel - 1, by omega⟩
    have hfail0 := hfail 0 (Nat.succ_pos n)
    rw [Nat.add_zero] at hfail0
    have hrec := ih (idx + 1) f (2 * d) (by omega)
      (fun i hi => by
        have h2 := hfail (i + 1) (by omega)
        rwa [show idx + (i + 1) = idx + 1 + i by omega] at h2)
      (by rwa [show idx + 1 + n = idx + (n + 1) by omega])
    have hf0 : ¬ f = 0 := by omega
    rw [LLMClient.longPollGo]
    cases htr : tr idx with
    | error e =>
      rw [htr] at hfail0
      dsimp only
      rw [if_neg hf0]
      simp only [hrec]
      rw [delays_shift]
    | ok rr =>
      rw [htr] at hfail0
      have hnot : ¬(rr.done = true ∧ rr.response ≠ []) := by
        simp only [LLMClient.failsAt] at hfail0
        rcases hfail0 with h1 | h1
        · rintro ⟨hc, -⟩; rw [h1] at hc; exact Bool.false_ne_true hc
        · rintro ⟨-, hc⟩; exact hc h1
      dsimp only
      rw [if_neg hnot, if_neg hf0]
      simp only [hrec]
      rw [delays_shift]

/-- Claim C7: with `maxRetries` m and initial delay d, if the atomic call
fails on the first N attempts (N < m) — by a caught transport/timeout error
or a response failing the success predicate `done == true` and text
non-empty — and succeeds on attempt N+1, then `generate_with_long_polling`
returns the successful response text and the sleeps are exactly
d, 2d, 4d, ... (N delays, each double the previous). -/
theorem C7_retry_backoff_schedule (tr : LLMClient.Transport) (r : LLMClient.GenResp)
    (N m : Nat) (d : ℚ) (hN : N < m)
    (hfail : ∀ i, i < N → LLMClient.failsAt (tr i))
    (hok : tr N = .ok r) (hd : r.done = true) (hr : r.response ≠ []) :
    LLMClient.generate_with_long_polling tr m d
      = (.ok r.response, (List.range N).map fun i => 2 ^ i * d) := by
  have h := longPoll_spec tr r hd hr N 0 m d hN
    (fun i hi => by rw [Nat.zero_add]; exact hfail i hi)
    (by rwa [Nat.zero_add])
  exact h

theorem C7_witness :
    LLMClient.generate_with_long_polling tr7C7 3 1
      = (.ok (ofStr "ok"), (List.range 2).map fun i => 2 ^ i * (1 : ℚ)) :=
  C7_retry_backoff_schedule tr7C7 ⟨true, ofStr "ok"⟩ 2 3 1 (by omega)
    (by decide) rfl rfl (by decide)

/-! ## C4: terminality of complete/error events -/

theorem noTail_append_chunks (m : Nat) (evs rest : List LLMClient.StreamEvent)
    (hc : ∀ ev ∈ evs, ∃ c a, ev = LLMClient.StreamEvent.chunk c a)
    (hrest : noTailAfterTerminal m rest) :
    noTailAfterTerminal m (evs ++ rest) := by
  induction evs with
  | nil => simpa using hrest
  | cons e evs' ih =>
    refine ⟨?_, ih fun ev hev => hc ev (List.mem_cons_of_mem e hev)⟩
    obtain ⟨c, a, rfl⟩ := hc e (List.mem_cons_self e evs')
    intro hterm
    exact absurd hterm (by simp [isTerminalFor])

theorem streamGo_noTail (attempts : Nat → LLMClient.StreamAttempt) :
    ∀ (fuel cur : Nat),
      noTailAfterTerminal (cur + fuel) (LLMClient.streamGo attempts cur fuel).1 := by
  intro fuel
  induction fuel with
  | zero => intro cur; exact trivial
  | succ left ih =>
    intro cur
    rw [LLMClient.streamGo]
    have hchunks := runFrags_evs_chunks (cur + 1) (attempts cur).frags
      ⟨[], [], []⟩ (by intro ev hev; simp at hev)
    cases hfm : (attempts cur).failMsg with
    | none =>
      dsimp only
      refine noTail_append_chunks _ _ _ hchunks ⟨fun _ => rfl, trivial⟩
    | some e =>
      dsimp only
      by_cases hl : left = 0
      · subst hl
        rw [if_pos rfl]
        exact noTail_append_chunks _ _ _ hchunks ⟨fun _ => rfl, trivial⟩
      · rw [if_neg hl]
        dsimp only
        rw [List.append_assoc]
        refine noTail_append_chunks _ _ _ hchunks ?_
        refine ⟨fun hterm => ?_, ?_⟩
        · exact absurd hterm (by simp [isTerminalFor]; omega)
        · have h2 := ih (cur + 1)
          rwa [show cur + 1 + left = cur + (left + 1) by omega] at h2

/-- Claim C4 (amended): `complete` events are terminal, and an `error` event
is terminal exactly when it carries the final attempt number
(`attempt = max_retries`); an `error` event on an earlier attempt is
followed by the events of the retry. -/
theorem C4_terminal_events (attempts : Nat → LLMClient.StreamAttempt) (m : Nat) :
    noTailAfterTerminal m
      (LLMClient.generate_reflection_and_weight_stream attempts m).1 := by
  have h := streamGo_noTail attempts m 0
  rwa [Nat.zero_add] at h

/-- Counterexample to claim C4 as stated: when the first attempt raises and
a retry remains, the `error` event is followed by further events — here a
`complete` from the successful second attempt. -/
theorem C4_cex :
    (LLMClient.generate_reflection_and_weight_stream
        (fun i => if i = 0 then ⟨[], some (ofStr "boom")⟩ else ⟨[], none⟩) 2).1
      = [.error (ofStr "boom") 1, .complete [] 0 [] 2] := rfl

/-! ## C1: leak prevention on the fixed scenario text -/

theorem runFrags_buffer_slices (S : Str) (att : Nat) :
    ∀ (frags : List Str) (st : LLMClient.PFState) (i k : Nat),
      i ≤ k → k ≤ S.length →
      st.buffer = (S.take k).drop i →
      frags.flatten = S.drop k →
      (∀ ev ∈ st.evs, chunkIsSlice S ev) →
      ∀ ev ∈ (LLMClient.runFrags att frags st).evs, chunkIsSlice S ev := by
  intro frags
  induction frags with
  | nil => intro st i k _ _ _ _ hevs; exact hevs
  | cons f rest ih =>
    intro st i k hik hk hbuf hflat hevs
    rw [LLMClient.runFrags]
    rw [List.flatten_cons] at hflat
    have hf : f = (S.drop k).take f.length := by
      rw [← hflat]
      exact (List.take_left f rest.flatten).symm
    have hrest : rest.flatten = S.drop (k + f.length) := by
      have h2 : (f ++ rest.flatten).drop f.length = rest.flatten := List.drop_left f rest.flatten
      rw [hflat] at h2
      rw [← h2, List.drop_drop]
    have hflen : k + f.length ≤ S.length := by
      have h3 := congrArg List.length hf
      rw [List.length_take, List.length_drop] at h3
      omega
    have hbuf2 : st.buffer ++ f = (S.take (k + f.length)).drop i := by
      rw [List.take_add S k f.length, List.drop_append_eq_append_drop, List.length_take]
      have h4 : i - min k S.length = 0 := by omega
      rw [h4, List.drop_zero, hbuf]
      congr 1
    by_cases hcond : pyStrip (LLMClient.filterBuffer (st.buffer ++ f)) ≠ []
    · have hstep : LLMClient.stepFrag att st f
          = ⟨st.full ++ f, [],
             st.evs ++ [.chunk (LLMClient.filterBuffer (st.buffer ++ f)) att]⟩ := by
        unfold LLMClient.stepFrag
        rw [if_pos hcond]
      rw [hstep]
      refine ih _ (k + f.length) (k + f.length) le_rfl hflen ?_ hrest ?_
      · exact (List.drop_eq_nil_of_le (by rw [List.length_take]; omega)).symm
      · intro ev hev
        rcases List.mem_append.1 hev with h1 | h1
        · exact hevs ev h1
        · rcases List.mem_singleton.1 h1 with rfl
          intro c a hch
          injection hch with hc ha
          exact ⟨i, k + f.length, by omega, hflen, by rw [← hc, hbuf2]⟩
    · have hstep : LLMClient.stepFrag att st f = ⟨st.full ++ f, st.buffer ++ f, st.evs⟩ := by
        unfold LLMClient.stepFrag
        rw [if_neg hcond]
      rw [hstep]
      exact ih _ i (k + f.length) (by omega) hflen hbuf2 hrest hevs

theorem sliceCheckC1_true : sliceCheckC1 = true := by decide

theorem sliceOK_of_check (i j : Nat) (hij : i ≤ j) (hj : j ≤ sC1.length) :
    sliceOK (LLMClient.filterBuffer ((sC1.take j).drop i)) = true := by
  have h := sliceCheckC1_true
  unfold sliceCheckC1 at h
  simp only [List.all_eq_true] at h
  exact h j (List.mem_range.2 (by omega)) i (List.mem_range.2 (by omega))

/-- Claim C1 (amended): for the fixed full response text
`...the weight is 7 out of 10 TAGS: calm, focus` and every fragment split of
it, no `chunk` event contains the substring `weight` or the bare tokens `7`
or `10` in isolation; some splits do emit a chunk still containing the
substring `TAGS:` (a split inside the word `weight` leaves a bare trailing
`TAGS:` that no filter removes), and the terminal `complete` event reports
weight 0 — not 7, since the phrasing `the weight is 7 out of 10` matches no
weight pattern of the extraction engine — with tags `[calm, focus]`. -/
theorem C1_leak_prevention (cs : List Str) (m : Nat) (hcs : cs.flatten = sC1) :
    (∀ c a, LLMClient.StreamEvent.chunk c a
        ∈ (LLMClient.generate_reflection_and_weight_stream (LLMClient.oneShot cs) (m + 1)).1 →
      containsSub c (ofStr "weight") = false
        ∧ isolatedTok c (ofStr "7") = false
        ∧ isolatedTok c (ofStr "10") = false)
  ∧ (LLMClient.generate_reflection_and_weight_stream (LLMClient.oneShot cs) (m + 1)).1.getLast?
      = some (.complete (ofStr "...") 0 [ofStr "calm", ofStr "focus"] 1) := by
  have hslices : ∀ ev ∈ (LLMClient.runFrags 1 cs (⟨[], [], []⟩ : LLMClient.PFState)).evs,
      chunkIsSlice sC1 ev :=
    runFrags_buffer_slices sC1 1 cs ⟨[], [], []⟩ 0 0 le_rfl (Nat.zero_le _) rfl
      (by simpa using hcs) (by intro ev hev; simp at hev)
  have hfull : (LLMClient.runFrags 1 cs (⟨[], [], []⟩ : LLMClient.PFState)).full = sC1 := by
    rw [runFrags_full]
    simpa using hcs
  constructor
  · intro c a hmem
    rw [LLMClient.generate_reflection_and_weight_stream, LLMClient.streamGo] at hmem
    simp only [LLMClient.oneShot, Nat.zero_add] at hmem
    rcases List.mem_append.1 hmem with h1 | h1
    · obtain ⟨i, j, hij, hj, hc⟩ := hslices _ h1 c a rfl
      have hok := sliceOK_of_check i j hij hj
      rw [← hc] at hok
      simp only [sliceOK, Bool.and_eq_true, Bool.not_eq_true'] at hok
      exact ⟨hok.1.1, hok.1.2, hok.2⟩
    · rcases List.mem_singleton.1 h1 with h2
      rw [LLMClient.completeEventOf] at h2
      split at h2 <;> exact absurd h2 (by simp)
  · rw [LLMClient.generate_reflection_and_weight_stream, LLMClient.streamGo]
    simp only [LLMClient.oneShot, Nat.zero_add]
    rw [List.getLast?_concat, hfull]
    decide

theorem C1_witness :
    split3C1.flatten = sC1
  ∧ (LLMClient.generate_reflection_and_weight_stream (LLMClient.oneShot split3C1) 3).1.getLast?
      = some (.complete (ofStr "...") 0 [ofStr "calm", ofStr "focus"] 1) :=
  ⟨by decide, (C1_leak_prevention split3C1 2 (by decide)).2⟩

/-- Counterexample to claim C1 as stated: under the split
`[...the wei | ght is 7 out of 10 TAGS: | _calm, focus]` the second chunk
event still contains the substring `TAGS:` (the buffer was flushed in the
middle of `weight`, so no filter saw the marker with content after it), and
the terminal `complete` event reports weight 0, not 7. -/
theorem C1_cex :
    split3C1.flatten = sC1
  ∧ (LLMClient.generate_reflection_and_weight_stream (LLMClient.oneShot split3C1) 3).1
      = [.chunk (ofStr "...the wei") 1,
         .chunk (ofStr "ght is  out of  TAGS:") 1,
         .chunk (ofStr " calm, focus") 1,
         .complete (ofStr "...") 0 [ofStr "calm", ofStr "focus"] 1]
  ∧ containsSub (ofStr "ght is  out of  TAGS:") (ofStr "TAGS:") = true
  ∧ (0 : Nat) ≠ 7 := by decide
